import Mathlib

/-!
Shallow embedding of the core logic of the 3colors repository:
hair-color remapping (`src/color_processing.py`), quantile-grid
representative sampling (`src/quantile_analysis.py`), and the
best-balanced sample selection (`app.py`), together with theorems
checking the natural-language specification against it.

Numeric modelling: Python floats are modelled as exact rationals `ℚ`
inside the executable embedding; the real-valued quantities the spec
talks about (Euclidean distances, `sqrt`, `atan2`) appear in theorem
statements over `ℝ`.  Pixel channels are natural numbers (0-255 in
practice).  A Python exception propagating out of a function is an
`Except.error`; a function that can never let one escape returns a plain
value.
-/

namespace ThreeColors

/- The Batteries rational arithmetic is `@[irreducible]` by default; the
concrete evaluations below need it to reduce. -/
attribute [local semireducible] Rat.inv Rat.mul Rat.add Rat.sub Rat.ofScientific

/-- Python exception kinds the embedded code can produce, together with the
error classes named by the specification (`DimensionMismatchError`,
`InsufficientDataError`, `InvalidGridSizeError`, `EmptyInputError`,
`RemapError`).  The source defines and raises none of the latter; having
them in the vocabulary lets claims about them be stated. -/
inductive PyError where
  | keyError : String → PyError
  | valueError : String → PyError
  | zeroDivisionError : PyError
  | dimensionMismatchError : PyError
  | insufficientDataError : PyError
  | invalidGridSizeError : PyError
  | emptyInputError : PyError
  | remapError : PyError
deriving DecidableEq, Repr

/-- An RGB pixel value; channels are 0-255 in practice. -/
structure RGB where
  r : ℕ
  g : ℕ
  b : ℕ
deriving DecidableEq, Repr

/-- Squared Euclidean RGB distance.  `np.linalg.norm(center - pixel)`
(color_processing.py:68) is the square root of this; since `sqrt` is
strictly monotone, `np.argmin` over the norms is the first argmin over
these squares, so the executable embedding works with the squares and the
theorems state Euclidean facts through `edist` below. -/
def dist2 (p q : RGB) : ℤ :=
  ((p.r : ℤ) - q.r) ^ 2 + ((p.g : ℤ) - q.g) ^ 2 + ((p.b : ℤ) - q.b) ^ 2

/-- Euclidean RGB distance, the value `np.linalg.norm` computes. -/
noncomputable def edist (p q : RGB) : ℝ := Real.sqrt ((dist2 p q : ℝ))

/-- First element minimizing `f`: `np.argmin`, pandas `idxmin` and Python
`min(..., key=f)` all return the first position attaining the minimum. -/
def firstArgmin {α β : Type} [LinearOrder β] (f : α → β) : List α → Option α
  | [] => none
  | x :: xs =>
    match firstArgmin f xs with
    | none => some x
    | some b => if f x ≤ f b then some x else some b

/-- `find_closest_color` (color_processing.py:56-70): the cluster center at
minimal Euclidean distance from the pixel, first index winning ties.
`none` on an empty center list, where `np.argmin` would raise. -/
def find_closest_color (pixel : RGB) (cluster_centers : List RGB) : Option RGB :=
  firstArgmin (fun c => dist2 pixel c) cluster_centers

/-- An RGB raster image: a list of pixel rows.  The embedding covers images
already in RGB mode, so PIL `convert("RGB")` (lines 87-88) is the
identity on pixel data. -/
structure Img where
  rows : List (List RGB)
deriving DecidableEq, Repr

def Img.width (im : Img) : ℕ := (im.rows.headD []).length

def Img.height (im : Img) : ℕ := im.rows.length

/-- PIL `Image.size` is `(width, height)`. -/
def Img.size (im : Img) : ℕ × ℕ := (im.width, im.height)

/-- The image is a rectangular `w × h` pixel grid. -/
def Img.rect (im : Img) (w h : ℕ) : Prop :=
  im.rows.length = h ∧ ∀ row ∈ im.rows, row.length = w

instance (im : Img) (w h : ℕ) : Decidable (im.rect w h) := by
  unfold Img.rect; infer_instance

/-- The pixel at row `y`, column `x` (numpy indexing `image_np[y, x]`). -/
def Img.pixelAt (im : Img) (y x : ℕ) : Option RGB :=
  (im.rows.get? y).bind fun row => row.get? x

/-- The hair-pixel test (color_processing.py:100):
`(mask_np != [0, 0, 0]).all(axis=2)` holds iff every channel differs from
zero. -/
def isHair (p : RGB) : Bool := decide (p.r ≠ 0) && decide (p.g ≠ 0) && decide (p.b ≠ 0)

/-- One step of the remapping loop (color_processing.py:124-127): a hair
pixel is replaced by its nearest cluster center, any other pixel keeps its
value.  The loop writes each hair position exactly once and reads only
that position, so it is a pointwise map. -/
def remapPixel (centers : List RGB) (ip mp : RGB) : RGB :=
  if isHair mp then (find_closest_color ip centers).getD ip else ip

/-- The whole remapping pass over the pixel grid. -/
def remapGrid (centers : List RGB) (image mask : Img) : Img :=
  ⟨List.zipWith (fun irow mrow => List.zipWith (remapPixel centers) irow mrow)
    image.rows mask.rows⟩

/-- A row of color data (a `pd.Series`): an association list from column
name to numeric value.  Looking up a missing column raises `KeyError`. -/
def ColorData : Type := List (String × ℚ)

def ColorData.get (d : ColorData) (k : String) : Except PyError ℚ :=
  match d.lookup k with
  | some v => Except.ok v
  | none => Except.error (PyError.keyError k)

/-- Cluster-center extraction (color_processing.py:103-116): read
`L_i, a_i, b_i` for `i = 1..n_clusters` and convert each Lab triple to an
RGB color.  The Lab→sRGB conversion `lab_to_rgb` (lines 8-21) delegates to
the external luxpy library, so it enters the embedding as the parameter
`labToRgb`. -/
def extractClusterCenters (labToRgb : ℚ → ℚ → ℚ → RGB) (d : ColorData)
    (n : ℕ) : Except PyError (List RGB) :=
  (List.range n).mapM fun i => do
    let L ← d.get ("L_" ++ toString (i + 1))
    let a ← d.get ("a_" ++ toString (i + 1))
    let b ← d.get ("b_" ++ toString (i + 1))
    pure (labToRgb L a b)

/-- What the caller of `remap_hair_colors` observes: the returned image and
the exception propagating out of the call, if any.  The whole body is
wrapped in `try ... except Exception` (color_processing.py:85-141), so
`raised` is `none` on every path; errors are only written to the log. -/
structure RemapResult where
  image : Img
  raised : Option PyError
deriving DecidableEq, Repr

/-- Body of the `try` block of `remap_hair_colors`
(color_processing.py:85-137).  A size mismatch logs and returns the input
image unchanged (lines 91-93); a missing palette column propagates
`KeyError` out of the block. -/
def remapTry (labToRgb : ℚ → ℚ → ℚ → RGB) (image mask : Img)
    (color_data : ColorData) (n_clusters : ℕ) : Except PyError Img :=
  if image.size ≠ mask.size then Except.ok image
  else do
    let centers ← extractClusterCenters labToRgb color_data n_clusters
    pure (remapGrid centers image mask)

/-- `remap_hair_colors` (color_processing.py:72-141): the `except` clause
catches every exception and returns the input image, so the caller always
receives an image and never an error. -/
def remap_hair_colors (labToRgb : ℚ → ℚ → ℚ → RGB) (image mask : Img)
    (color_data : ColorData) (n_clusters : ℕ) : RemapResult :=
  match remapTry labToRgb image mask color_data n_clusters with
  | Except.ok out => ⟨out, none⟩
  | Except.error _ => ⟨image, none⟩

/-- The balance score computed inside `get_sample_info`
(color_processing.py:37-39): sum of the absolute deviations of the
proportions from the target `100 / 3`. -/
def balance_score (proportions : List ℚ) : ℚ :=
  (proportions.map fun p => |p - 100 / 3|).sum

/-- One data row as `get_sample_info` reads it: the three cluster
proportions (the filename column is presentation only and carried along
unchanged). -/
structure SampleRow where
  proportion_1 : ℚ
  proportion_2 : ℚ
  proportion_3 : ℚ
deriving DecidableEq, Repr

/-- One entry of the list `get_sample_info` returns, restricted to the
fields the selection logic uses. -/
structure SampleInfo where
  index : ℕ
  proportions : List ℚ
  score : ℚ
deriving DecidableEq, Repr

/-- `get_sample_info` (color_processing.py:23-54). -/
def get_sample_info (df : List SampleRow) : List SampleInfo :=
  df.enum.map fun p =>
    ⟨p.1, [p.2.proportion_1, p.2.proportion_2, p.2.proportion_3],
      balance_score [p.2.proportion_1, p.2.proportion_2, p.2.proportion_3]⟩

/-- The "Use Best Balanced" selection (app.py:249-250):
`min(samples_info, key=lambda x: x['balance_score'])`.  Python `min` keeps
the first minimum and raises `ValueError` on an empty sequence. -/
def best_balanced (samples_info : List SampleInfo) : Except PyError SampleInfo :=
  match firstArgmin (fun s => s.score) samples_info with
  | some s => Except.ok s
  | none => Except.error (PyError.valueError "min() arg is an empty sequence")

/-- `lab_to_lch` (quantile_analysis.py:7-13) over the reals.
`np.arctan2 b a` is the argument of the complex number `a + b·i`
(`Complex.arg`, valued in `(-π, π]` with `arg 0 = 0`, exactly numpy's
convention for non-negative zeros). -/
noncomputable def lab_to_lch (L a b : ℝ) : ℝ × ℝ × ℝ :=
  let C := Real.sqrt (a ^ 2 + b ^ 2)
  let h0 := Complex.arg ((a : ℂ) + (b : ℂ) * Complex.I) * 180 / Real.pi
  (L, C, if h0 < 0 then h0 + 360 else h0)

/-- Linear-interpolation quantile of a data series, pandas
`Series.quantile` with the default `interpolation='linear'`: with the data
sorted ascending as `s 0, …, s (n-1)`, the `q`-quantile sits at fractional
position `q * (n - 1)` and interpolates linearly between the two
neighbouring order statistics.  Returns 0 on an empty series (pandas gives
`NaN`; the embedded callers never reach that case). -/
def quantile (xs : List ℚ) (q : ℚ) : ℚ :=
  let s := List.insertionSort (· ≤ ·) xs
  let pos := q * ((s.length : ℚ) - 1)
  let lo := (⌊pos⌋).toNat
  let x0 := s.getD lo 0
  let x1 := s.getD (lo + 1) x0
  x0 + (pos - (⌊pos⌋ : ℚ)) * (x1 - x0)

/-- The `grid_size + 1` quantile cut points of one axis
(quantile_analysis.py:59-63): `boundary k` is the `k / grid_size` quantile
of the axis values.  (For `grid_size = 0` the Python expression
`i / grid_size` raises `ZeroDivisionError`; the caller below guards that
case.) -/
def quantileBoundaries (vals : List ℚ) (grid_size : ℕ) : List ℚ :=
  (List.range (grid_size + 1)).map fun k : ℕ => quantile vals ((k : ℚ) / (grid_size : ℚ))

/-- Scan of the upper bin edges: first index `i` (starting at the given
offset) whose edge is `≥ v`. -/
def pdCutGo (v : ℚ) : ℕ → List ℚ → Option ℕ
  | _, [] => none
  | i, b :: bs => if v ≤ b then some i else pdCutGo v (i + 1) bs

/-- `pd.cut(v, bins, labels=False, include_lowest=True, duplicates='drop')`
for an ascending `bins` list: duplicate edges are dropped first; bin 0 is
then the closed interval from edge 0 to edge 1, bin `i > 0` the interval
left-open at edge `i` and closed at edge `i + 1`; a value outside every
bin gets `NaN`, here `none`. -/
def pdCut (bins : List ℚ) (v : ℚ) : Option ℕ :=
  match bins.dedup with
  | [] => none
  | b0 :: rest => if v < b0 then none else pdCutGo v 0 rest

/-- One row of the LCh table `df_lch` (quantile_analysis.py:40-53),
restricted to the numeric fields the selection logic touches; `idx` is the
original dataframe index and the identity columns (`RESP_FINAL`, `VIDEOS`,
`XSHADE_S`, the Lab copies) ride along unchanged.  The Lab→LCh conversion
producing these rows is `lab_to_lch` above; the selection logic below is
embedded over exact rationals on the already-converted rows. -/
structure LchRow where
  idx : ℕ
  L : ℚ
  C : ℚ
  h : ℚ
deriving DecidableEq, Repr

/-- The L-axis quantile boundaries `L_bins` for a region (line 61). -/
def regionLBins (rows : List LchRow) (grid_size : ℕ) : List ℚ :=
  quantileBoundaries (rows.map fun r => r.L) grid_size

/-- The C-axis quantile boundaries `C_bins` (line 62). -/
def regionCBins (rows : List LchRow) (grid_size : ℕ) : List ℚ :=
  quantileBoundaries (rows.map fun r => r.C) grid_size

/-- The h-axis quantile boundaries `h_bins` (line 63). -/
def regionHBins (rows : List LchRow) (grid_size : ℕ) : List ℚ :=
  quantileBoundaries (rows.map fun r => r.h) grid_size

/-- The rows landing in L-C grid cell `(i, j)` (lines 66-67 and 78): both
`pd.cut` labels match. -/
def lcCell (rows : List LchRow) (grid_size i j : ℕ) : List LchRow :=
  rows.filter fun r =>
    pdCut (regionLBins rows grid_size) r.L == some i &&
    pdCut (regionCBins rows grid_size) r.C == some j

/-- The rows landing in L-h grid cell `(i, j)` (lines 70-71 and 99). -/
def lhCell (rows : List LchRow) (grid_size i j : ℕ) : List LchRow :=
  rows.filter fun r =>
    pdCut (regionLBins rows grid_size) r.L == some i &&
    pdCut (regionHBins rows grid_size) r.h == some j

/-- Center of L-C cell `(i, j)` (lines 82-83): midpoints of the boundary
pairs, taken from the original (non-deduplicated) quantile arrays. -/
def lcCenter (rows : List LchRow) (grid_size i j : ℕ) : ℚ × ℚ :=
  (((regionLBins rows grid_size).getD i 0 + (regionLBins rows grid_size).getD (i + 1) 0) / 2,
   ((regionCBins rows grid_size).getD j 0 + (regionCBins rows grid_size).getD (j + 1) 0) / 2)

/-- Center of L-h cell `(i, j)` (lines 103-104). -/
def lhCenter (rows : List LchRow) (grid_size i j : ℕ) : ℚ × ℚ :=
  (((regionLBins rows grid_size).getD i 0 + (regionLBins rows grid_size).getD (i + 1) 0) / 2,
   ((regionHBins rows grid_size).getD j 0 + (regionHBins rows grid_size).getD (j + 1) 0) / 2)

/-- Representative of L-C cell `(i, j)` (lines 80-92): among the rows of
the cell, the first row minimizing the Euclidean distance of `(L, C)` to
the cell center (`idxmin` returns the first minimum; the squared distance
is minimized by the same row). -/
def lcRepresentative (rows : List LchRow) (grid_size i j : ℕ) : Option LchRow :=
  firstArgmin
    (fun r => (r.L - (lcCenter rows grid_size i j).1) ^ 2 +
      (r.C - (lcCenter rows grid_size i j).2) ^ 2)
    (lcCell rows grid_size i j)

/-- Representative of L-h cell `(i, j)` (lines 101-113). -/
def lhRepresentative (rows : List LchRow) (grid_size i j : ℕ) : Option LchRow :=
  firstArgmin
    (fun r => (r.L - (lhCenter rows grid_size i j).1) ^ 2 +
      (r.h - (lhCenter rows grid_size i j).2) ^ 2)
    (lhCell rows grid_size i j)

/-- The grid cells enumerated in the selection loops (lines 76-77 and
97-98), in lexicographic order. -/
def gridCells (grid_size : ℕ) : List (ℕ × ℕ) :=
  (List.range grid_size).flatMap fun i => (List.range grid_size).map fun j => (i, j)

/-- `selected_lc` (lines 74-92): the representatives of the non-empty L-C
cells, in cell order. -/
def lcSelected (rows : List LchRow) (grid_size : ℕ) : List LchRow :=
  (gridCells grid_size).filterMap fun ij => lcRepresentative rows grid_size ij.1 ij.2

/-- `selected_lh` (lines 95-113). -/
def lhSelected (rows : List LchRow) (grid_size : ℕ) : List LchRow :=
  (gridCells grid_size).filterMap fun ij => lhRepresentative rows grid_size ij.1 ij.2

/-- The dictionary returned by `select_representative_samples_quantile`
(quantile_analysis.py:120-129). -/
structure QuantileSelection where
  lc_samples : List LchRow
  lh_samples : List LchRow
  bins_L : List ℚ
  bins_C : List ℚ
  bins_h : List ℚ
  all_samples : List LchRow
deriving DecidableEq, Repr

/-- `select_representative_samples_quantile` (quantile_analysis.py:15-129)
on the LCh-converted rows.  `grid_size = 0` raises `ZeroDivisionError` in
the quantile list comprehension at line 59 (`i / grid_size`), before any
column is read; after that, on an empty input, `pd.DataFrame([])` has no
columns, so `df_lch['L']` at line 61 raises an uncaught `KeyError`.  No
other input makes the function fail. -/
def select_representative_samples_quantile (rows : List LchRow)
    (grid_size : ℕ) : Except PyError QuantileSelection :=
  if grid_size = 0 then Except.error PyError.zeroDivisionError
  else if rows.isEmpty then Except.error (PyError.keyError "L")
  else
    Except.ok
      ⟨lcSelected rows grid_size, lhSelected rows grid_size,
        regionLBins rows grid_size, regionCBins rows grid_size,
        regionHBins rows grid_size, rows⟩

/-- The bin label a value receives on one axis: `pd.cut` over that axis's
quantile boundaries (quantile_analysis.py:66-71). -/
def binAssign (vals : List ℚ) (grid_size : ℕ) (v : ℚ) : Option ℕ :=
  pdCut (quantileBoundaries vals grid_size) v

/-- Euclidean distance between two points of a 2-D axis plane, the value
`scipy.spatial.distance.euclidean` computes at lines 87 and 108. -/
noncomputable def edist2 (p q : ℚ × ℚ) : ℝ :=
  Real.sqrt (((p.1 - q.1) ^ 2 + (p.2 - q.2) ^ 2 : ℚ))

/-! Concrete data for witnesses and counterexamples. -/

/-- A concrete instantiation of the external Lab→sRGB conversion parameter,
used only to evaluate the embedding on explicit inputs: the numerator of
each rational Lab field becomes the channel value. -/
def testConv : ℚ → ℚ → ℚ → RGB := fun L a b => ⟨L.num.toNat, a.num.toNat, b.num.toNat⟩

/-- A palette whose three clusters convert (under `testConv`) to the gray
levels 200, 201 and 202. -/
def demoPalette : ColorData :=
  [("L_1", 200), ("a_1", 200), ("b_1", 200), ("L_2", 201), ("a_2", 201), ("b_2", 201),
   ("L_3", 202), ("a_3", 202), ("b_3", 202)]

/-- A 1×1 image holding the single pixel (10, 10, 10). -/
def demoImg1 : Img := ⟨[[⟨10, 10, 10⟩]]⟩

/-- A 1×1 mask whose pixel (255, 0, 0) has a nonzero channel but is not
all-channels-nonzero. -/
def demoMaskRed : Img := ⟨[[⟨255, 0, 0⟩]]⟩

/-- A 2×2 image. -/
def demoImg2 : Img := ⟨[[⟨10, 10, 10⟩, ⟨40, 40, 40⟩], [⟨90, 90, 90⟩, ⟨10, 200, 30⟩]]⟩

/-- A 2×2 mask with exactly one non-black pixel, all of whose channels are
nonzero. -/
def demoMask2 : Img := ⟨[[⟨255, 255, 255⟩, ⟨0, 0, 0⟩], [⟨0, 0, 0⟩, ⟨0, 0, 0⟩]]⟩

/-- A 2×2 mask with exactly one non-black pixel (1, 0, 0), which has a zero
channel. -/
def demoMaskOneChan : Img := ⟨[[⟨1, 0, 0⟩, ⟨0, 0, 0⟩], [⟨0, 0, 0⟩, ⟨0, 0, 0⟩]]⟩

/-- A 2×1 mask, size-incompatible with the 1×1 and 2×2 images above. -/
def demoMaskWide : Img := ⟨[[⟨1, 1, 1⟩, ⟨1, 1, 1⟩]]⟩

/-- Axis values 0, 0, 0, 100: their quantile boundaries for grid size 4
collapse ([0, 0, 0, 25, 100]). -/
def demoLVals : List ℚ := [0, 0, 0, 100]

/-- 16 rows with distinct L values evenly spaced from 0 to 100. -/
def demoRows16 : List LchRow := (List.range 16).map fun i => ⟨i, (20 * i : ℚ) / 3, i, i⟩

/-- Four rows with distinct coordinates. -/
def demoRows4 : List LchRow := [⟨0, 0, 0, 0⟩, ⟨1, 10, 10, 10⟩, ⟨2, 50, 3, 7⟩, ⟨3, 100, 9, 2⟩]

/-- Two rows. -/
def demoRows2 : List LchRow := [⟨0, 0, 0, 0⟩, ⟨1, 10, 10, 10⟩]

/-- Two sample rows; the second has the lower balance score. -/
def demoSampleRows : List SampleRow := [⟨50, 30, 20⟩, ⟨34, 33, 33⟩]

/-! Helper lemmas. -/

theorem firstArgmin_eq_none {α β : Type} [LinearOrder β] (f : α → β) (l : List α) :
    firstArgmin f l = none ↔ l = [] := by
  cases l with
  | nil => simp [firstArgmin]
  | cons x xs =>
    rw [firstArgmin]
    cases firstArgmin f xs with
    | none => simp
    | some b => by_cases hc : f x ≤ f b <;> simp [hc]

/-- What `firstArgmin` returns: an element of the list, of minimal value,
with every strictly earlier element strictly worse. -/
theorem firstArgmin_spec {α β : Type} [LinearOrder β] (f : α → β) :
    ∀ (l : List α) (m : α), firstArgmin f l = some m →
      ∃ k, l.get? k = some m ∧ (∀ j x, l.get? j = some x → f m ≤ f x) ∧
        (∀ j x, j < k → l.get? j = some x → f m < f x) := by
  intro l
  induction l with
  | nil => intro m hm; simp [firstArgmin] at hm
  | cons a xs ih =>
    intro m hm
    rw [firstArgmin] at hm
    cases hxs : firstArgmin f xs with
    | none =>
      rw [hxs] at hm
      cases hm
      have hxe : xs = [] := (firstArgmin_eq_none f xs).mp hxs
      subst hxe
      refine ⟨0, rfl, ?_, ?_⟩
      · intro j x hj
        cases j with
        | zero => cases hj; exact le_refl _
        | succ n => simp at hj
      · intro j x hj; exact absurd hj (Nat.not_lt_zero j)
    | some b =>
      rw [hxs] at hm
      dsimp only at hm
      obtain ⟨k, hk, hmin, hstrict⟩ := ih b hxs
      by_cases hc : f a ≤ f b
      · rw [if_pos hc] at hm
        cases hm
        refine ⟨0, rfl, ?_, ?_⟩
        · intro j x hj
          cases j with
          | zero => cases hj; exact le_refl _
          | succ n => exact le_trans hc (hmin n x hj)
        · intro j x hj; exact absurd hj (Nat.not_lt_zero j)
      · rw [if_neg hc] at hm
        cases hm
        have hba : f m < f a := lt_of_not_le hc
        refine ⟨k + 1, hk, ?_, ?_⟩
        · intro j x hj
          cases j with
          | zero => cases hj; exact le_of_lt hba
          | succ n => exact hmin n x hj
        · intro j x hj hx
          cases j with
          | zero => cases hx; exact hba
          | succ n => exact hstrict n x (Nat.lt_of_succ_lt_succ hj) hx

theorem pixelAt_remapGrid (centers : List RGB) (image mask : Img) (y x : ℕ) :
    (remapGrid centers image mask).pixelAt y x =
      match image.pixelAt y x, mask.pixelAt y x with
      | some ip, some mp => some (remapPixel centers ip mp)
      | some _, none => none
      | none, _ => none := by
  unfold remapGrid Img.pixelAt
  rw [List.get?_zipWith']
  cases image.rows.get? y with
  | none => rfl
  | some irow =>
    cases mask.rows.get? y with
    | none =>
      show (none : Option RGB) =
        match irow.get? x, (none : Option RGB) with
        | some ip, some mp => some (remapPixel centers ip mp)
        | some _, none => none
        | none, _ => none
      cases irow.get? x <;> rfl
    | some mrow =>
      show (List.zipWith (remapPixel centers) irow mrow).get? x =
        match irow.get? x, mrow.get? x with
        | some ip, some mp => some (remapPixel centers ip mp)
        | some _, none => none
        | none, _ => none
      rw [List.get?_zipWith']
      cases irow.get? x <;> cases mrow.get? x <;> rfl

/-- Unfolding of `remap_hair_colors` when the sizes match and the palette
extraction succeeds. -/
theorem remap_hair_colors_eq_ok (conv : ℚ → ℚ → ℚ → RGB) (image mask : Img)
    (cd : ColorData) (n : ℕ) (centers : List RGB)
    (hsz : image.size = mask.size)
    (hex : extractClusterCenters conv cd n = Except.ok centers) :
    remap_hair_colors conv image mask cd n = ⟨remapGrid centers image mask, none⟩ := by
  unfold remap_hair_colors remapTry
  rw [if_neg (by simp [hsz]), hex]
  rfl

theorem remapGrid_size (centers : List RGB) (image mask : Img) (w h : ℕ)
    (hi : image.rect w h) (hm : mask.rect w h) :
    (remapGrid centers image mask).size = image.size := by
  obtain ⟨hilen, hirow⟩ := hi
  obtain ⟨hmlen, hmrow⟩ := hm
  unfold remapGrid Img.size Img.width Img.height
  cases himg : image.rows with
  | nil =>
    cases hmsk : mask.rows with
    | nil => rfl
    | cons mr mrest =>
      exfalso
      rw [himg] at hilen
      rw [hmsk] at hmlen
      simp only [List.length_nil, List.length_cons] at hilen hmlen
      omega
  | cons ir irest =>
    cases hmsk : mask.rows with
    | nil =>
      exfalso
      rw [himg] at hilen
      rw [hmsk] at hmlen
      simp only [List.length_nil, List.length_cons] at hilen hmlen
      omega
    | cons mr mrest =>
      have h1 : ir.length = w := hirow ir (by rw [himg]; exact List.mem_cons_self _ _)
      have h2 : mr.length = w := hmrow mr (by rw [hmsk]; exact List.mem_cons_self _ _)
      have h3 : irest.length = mrest.length := by
        rw [himg] at hilen
        rw [hmsk] at hmlen
        simp only [List.length_cons] at hilen hmlen
        omega
      simp [List.length_zipWith, h1, h2, h3]

theorem pixelAt_eq_none_iff (im : Img) (w h : ℕ) (hrect : im.rect w h) (y x : ℕ) :
    im.pixelAt y x = none ↔ h ≤ y ∨ w ≤ x := by
  obtain ⟨hlen, hrow⟩ := hrect
  unfold Img.pixelAt
  cases hy : im.rows.get? y with
  | none =>
    have hyl : h ≤ y := hlen ▸ List.get?_eq_none.mp hy
    exact iff_of_true rfl (Or.inl hyl)
  | some row =>
    have hylt : y < im.rows.length := by
      by_contra hcon
      rw [List.get?_eq_none.mpr (le_of_not_lt hcon)] at hy
      cases hy
    have hwr : row.length = w := hrow row (List.get?_mem hy)
    show row.get? x = none ↔ _
    rw [List.get?_eq_none, hwr]
    constructor
    · intro hx; exact Or.inr hx
    · rintro (hyy | hxx)
      · exfalso; rw [hlen] at hylt; omega
      · exact hxx

theorem dist2_nonneg (p q : RGB) : 0 ≤ dist2 p q := by unfold dist2; positivity

theorem edist_le_edist (p a b : RGB) (h : dist2 p a ≤ dist2 p b) :
    edist p a ≤ edist p b := by
  unfold edist
  exact Real.sqrt_le_sqrt (by exact_mod_cast h)

theorem edist_lt_edist (p a b : RGB) (h : dist2 p a < dist2 p b) :
    edist p a < edist p b := by
  unfold edist
  apply Real.sqrt_lt_sqrt
  · exact_mod_cast dist2_nonneg p a
  · exact_mod_cast h

theorem edist2_le_edist2 (a b c : ℚ × ℚ)
    (h : (a.1 - c.1) ^ 2 + (a.2 - c.2) ^ 2 ≤ (b.1 - c.1) ^ 2 + (b.2 - c.2) ^ 2) :
    edist2 a c ≤ edist2 b c := by
  unfold edist2
  exact Real.sqrt_le_sqrt (by exact_mod_cast h)

theorem edist2_lt_edist2 (a b c : ℚ × ℚ)
    (h : (a.1 - c.1) ^ 2 + (a.2 - c.2) ^ 2 < (b.1 - c.1) ^ 2 + (b.2 - c.2) ^ 2) :
    edist2 a c < edist2 b c := by
  unfold edist2
  apply Real.sqrt_lt_sqrt
  · have : (0 : ℚ) ≤ (a.1 - c.1) ^ 2 + (a.2 - c.2) ^ 2 := by positivity
    exact_mod_cast this
  · exact_mod_cast h

/-! Claim theorems. -/

/-- C1 counterexample: the mask pixel (255, 0, 0) has a nonzero channel, so
under the claim's any-channel policy the image pixel (10, 10, 10) would be
recolored to its nearest cluster color (200, 200, 200); the code's
all-channels test (`(mask_np != [0,0,0]).all(axis=2)`) skips it and the
pixel keeps its original value. -/
theorem C1_counterexample :
    (remap_hair_colors testConv demoImg1 demoMaskRed demoPalette 3).image.pixelAt 0 0 =
        some ⟨10, 10, 10⟩ ∧
      demoMaskRed.pixelAt 0 0 = some ⟨255, 0, 0⟩ ∧
      demoImg1.size = demoMaskRed.size ∧
      extractClusterCenters testConv demoPalette 3 =
        Except.ok [⟨200, 200, 200⟩, ⟨201, 201, 201⟩, ⟨202, 202, 202⟩] ∧
      find_closest_color ⟨10, 10, 10⟩ [⟨200, 200, 200⟩, ⟨201, 201, 201⟩, ⟨202, 202, 202⟩] =
        some ⟨200, 200, 200⟩ ∧
      (⟨10, 10, 10⟩ : RGB) ≠ ⟨200, 200, 200⟩ :=
  ⟨rfl, rfl, rfl, rfl, rfl, by decide⟩

/-- C1 (amended): in `remap_hair_colors` a pixel is classified as hair, and
hence recolored to its nearest cluster color, iff its mask value has all
three channels nonzero; a pixel whose mask value has any zero channel (in
particular the black pixel (0, 0, 0)) keeps its original color. -/
theorem C1_hair_classification (conv : ℚ → ℚ → ℚ → RGB) (image mask : Img)
    (cd : ColorData) (n : ℕ) (centers : List RGB)
    (hsz : image.size = mask.size)
    (hex : extractClusterCenters conv cd n = Except.ok centers)
    (y x : ℕ) (ip mp : RGB)
    (hip : image.pixelAt y x = some ip) (hmp : mask.pixelAt y x = some mp) :
    (remap_hair_colors conv image mask cd n).image.pixelAt y x =
      some (if mp.r ≠ 0 ∧ mp.g ≠ 0 ∧ mp.b ≠ 0
        then (find_closest_color ip centers).getD ip else ip) := by
  rw [remap_hair_colors_eq_ok conv image mask cd n centers hsz hex]
  show (remapGrid centers image mask).pixelAt y x = _
  rw [pixelAt_remapGrid, hip, hmp]
  dsimp only
  unfold remapPixel isHair
  by_cases h1 : mp.r = 0 <;> by_cases h2 : mp.g = 0 <;> by_cases h3 : mp.b = 0 <;>
    simp [h1, h2, h3]

/-- Witness for C1: in the 2×2 example the mask pixel (255, 255, 255) at
(0, 0) is classified as hair and the image pixel there is recolored. -/
theorem C1_hair_classification_witness :
    (remap_hair_colors testConv demoImg2 demoMask2 demoPalette 3).image.pixelAt 0 0 =
      some (if (255 : ℕ) ≠ 0 ∧ (255 : ℕ) ≠ 0 ∧ (255 : ℕ) ≠ 0
        then (find_closest_color ⟨10, 10, 10⟩
          [⟨200, 200, 200⟩, ⟨201, 201, 201⟩, ⟨202, 202, 202⟩]).getD ⟨10, 10, 10⟩
        else ⟨10, 10, 10⟩) :=
  C1_hair_classification testConv demoImg2 demoMask2 demoPalette 3
    [⟨200, 200, 200⟩, ⟨201, 201, 201⟩, ⟨202, 202, 202⟩] rfl rfl 0 0
    ⟨10, 10, 10⟩ ⟨255, 255, 255⟩ rfl rfl

/-- C2: every hair pixel is replaced by the cluster color at minimum
Euclidean RGB distance from the pixel's original color, ties broken by the
lowest cluster index: the chosen color sits at an index whose distance is
at most every cluster's, and every strictly earlier cluster is strictly
farther. -/
theorem C2_nearest_cluster (conv : ℚ → ℚ → ℚ → RGB) (image mask : Img)
    (cd : ColorData) (c1 c2 c3 : RGB)
    (hsz : image.size = mask.size)
    (hex : extractClusterCenters conv cd 3 = Except.ok [c1, c2, c3])
    (y x : ℕ) (ip mp : RGB)
    (hip : image.pixelAt y x = some ip) (hmp : mask.pixelAt y x = some mp)
    (hhair : isHair mp = true) :
    ∃ c k, [c1, c2, c3].get? k = some c ∧
      (remap_hair_colors conv image mask cd 3).image.pixelAt y x = some c ∧
      (∀ j d, [c1, c2, c3].get? j = some d → edist ip c ≤ edist ip d) ∧
      (∀ j d, j < k → [c1, c2, c3].get? j = some d → edist ip c < edist ip d) := by
  rw [remap_hair_colors_eq_ok conv image mask cd 3 [c1, c2, c3] hsz hex]
  obtain ⟨c, hc⟩ : ∃ c, find_closest_color ip [c1, c2, c3] = some c := by
    cases h : find_closest_color ip [c1, c2, c3] with
    | none =>
      exfalso
      have := (firstArgmin_eq_none (fun d => dist2 ip d) [c1, c2, c3]).mp h
      cases this
    | some c => exact ⟨c, rfl⟩
  obtain ⟨k, hk, hmin, hstrict⟩ := firstArgmin_spec (fun d => dist2 ip d) [c1, c2, c3] c hc
  refine ⟨c, k, hk, ?_, ?_, ?_⟩
  · show (remapGrid [c1, c2, c3] image mask).pixelAt y x = some c
    rw [pixelAt_remapGrid, hip, hmp]
    dsimp only
    unfold remapPixel
    rw [if_pos hhair, hc]
    rfl
  · intro j d hj
    exact edist_le_edist ip c d (hmin j d hj)
  · intro j d hj hd
    exact edist_lt_edist ip c d (hstrict j d hj hd)

/-- Witness for C2: the hair pixel (10, 10, 10) of the 2×2 example is sent
to the nearest of the three gray cluster colors. -/
theorem C2_nearest_cluster_witness :
    ∃ c k, [(⟨200, 200, 200⟩ : RGB), ⟨201, 201, 201⟩, ⟨202, 202, 202⟩].get? k = some c ∧
      (remap_hair_colors testConv demoImg2 demoMask2 demoPalette 3).image.pixelAt 0 0 = some c ∧
      (∀ j d, [(⟨200, 200, 200⟩ : RGB), ⟨201, 201, 201⟩, ⟨202, 202, 202⟩].get? j = some d →
        edist ⟨10, 10, 10⟩ c ≤ edist ⟨10, 10, 10⟩ d) ∧
      (∀ j d, j < k →
        [(⟨200, 200, 200⟩ : RGB), ⟨201, 201, 201⟩, ⟨202, 202, 202⟩].get? j = some d →
        edist ⟨10, 10, 10⟩ c < edist ⟨10, 10, 10⟩ d) :=
  C2_nearest_cluster testConv demoImg2 demoMask2 demoPalette
    ⟨200, 200, 200⟩ ⟨201, 201, 201⟩ ⟨202, 202, 202⟩ rfl rfl 0 0
    ⟨10, 10, 10⟩ ⟨255, 255, 255⟩ rfl rfl rfl

/-- C3 counterexample: with a 1×1 image and a 2×1 mask, `remap_hair_colors`
returns the unchanged input image but signals nothing to the caller: the
only channels a caller can observe are the returned image and a
propagating exception, and nothing is raised (the mismatch is only
logged); no `DimensionMismatchError` exists anywhere in the code. -/
theorem C3_counterexample :
    remap_hair_colors testConv demoImg1 demoMaskWide demoPalette 3 = ⟨demoImg1, none⟩ ∧
      (remap_hair_colors testConv demoImg1 demoMaskWide demoPalette 3).raised ≠
        some PyError.dimensionMismatchError ∧
      demoImg1.size ≠ demoMaskWide.size :=
  ⟨rfl, by decide, by decide⟩

/-- C3 (amended): when the image and mask dimensions differ,
`remap_hair_colors` returns the original image unchanged and no error
reaches the caller (the mismatch is logged, nothing is raised or
returned as an error value). -/
theorem C3_mismatch_returns_input (conv : ℚ → ℚ → ℚ → RGB) (image mask : Img)
    (cd : ColorData) (n : ℕ) (hsz : image.size ≠ mask.size) :
    remap_hair_colors conv image mask cd n = ⟨image, none⟩ := by
  unfold remap_hair_colors remapTry
  rw [if_pos hsz]

/-- Witness for C3 (amended): the 1×1 image against the 2×1 mask. -/
theorem C3_mismatch_returns_input_witness :
    remap_hair_colors testConv demoImg1 demoMaskWide demoPalette 3 = ⟨demoImg1, none⟩ :=
  C3_mismatch_returns_input testConv demoImg1 demoMaskWide demoPalette 3 (by decide)

/-- C7 counterexample: the 2×2 mask has exactly one nonzero pixel,
(1, 0, 0); the claim predicts exactly that pixel changes, but the code's
all-channels test skips it, so zero pixels change even though the nearest
cluster color differs from the pixel's value. -/
theorem C7_counterexample :
    (remap_hair_colors testConv demoImg2 demoMaskOneChan demoPalette 3).image = demoImg2 ∧
      demoMaskOneChan.pixelAt 0 0 = some ⟨1, 0, 0⟩ ∧
      (⟨1, 0, 0⟩ : RGB) ≠ ⟨0, 0, 0⟩ ∧
      demoMaskOneChan.pixelAt 0 1 = some ⟨0, 0, 0⟩ ∧
      demoMaskOneChan.pixelAt 1 0 = some ⟨0, 0, 0⟩ ∧
      demoMaskOneChan.pixelAt 1 1 = some ⟨0, 0, 0⟩ ∧
      find_closest_color ⟨10, 10, 10⟩ [⟨200, 200, 200⟩, ⟨201, 201, 201⟩, ⟨202, 202, 202⟩] ≠
        some ⟨10, 10, 10⟩ :=
  ⟨rfl, rfl, by decide, rfl, rfl, rfl, by decide⟩

/-- C7 (amended): if the mask has an all-channels-nonzero pixel at exactly
one position, and there the nearest cluster color differs from the
original value, then exactly that pixel changes, every other pixel of the
output is byte-identical to the input, and the output is a new image of
the input's dimensions (the input image itself is untouched: the embedded
function is pure in it). -/
theorem C7_frame (conv : ℚ → ℚ → ℚ → RGB) (image mask : Img) (cd : ColorData)
    (n : ℕ) (centers : List RGB) (w h y0 x0 : ℕ) (p0 m0 c0 : RGB)
    (hir : image.rect w h) (hmr : mask.rect w h)
    (hsz : image.size = mask.size)
    (hex : extractClusterCenters conv cd n = Except.ok centers)
    (hm0 : mask.pixelAt y0 x0 = some m0) (hhair : isHair m0 = true)
    (hother : ∀ y, y < h → ∀ x, x < w → (y, x) ≠ (y0, x0) →
      isHair ((mask.pixelAt y x).getD ⟨0, 0, 0⟩) = false)
    (hp0 : image.pixelAt y0 x0 = some p0)
    (hc0 : find_closest_color p0 centers = some c0) (hne : c0 ≠ p0) :
    (remap_hair_colors conv image mask cd n).image.size = image.size ∧
      (remap_hair_colors conv image mask cd n).image.pixelAt y0 x0 = some c0 ∧
      c0 ≠ p0 ∧
      (∀ y x, (y, x) ≠ (y0, x0) →
        (remap_hair_colors conv image mask cd n).image.pixelAt y x = image.pixelAt y x) := by
  rw [remap_hair_colors_eq_ok conv image mask cd n centers hsz hex]
  refine ⟨remapGrid_size centers image mask w h hir hmr, ?_, hne, ?_⟩
  · show (remapGrid centers image mask).pixelAt y0 x0 = some c0
    rw [pixelAt_remapGrid, hp0, hm0]
    dsimp only
    unfold remapPixel
    rw [if_pos hhair, hc0]
    rfl
  · intro y x hyx
    show (remapGrid centers image mask).pixelAt y x = image.pixelAt y x
    rw [pixelAt_remapGrid]
    cases hipx : image.pixelAt y x with
    | none => rfl
    | some ip =>
      cases hmpx : mask.pixelAt y x with
      | none =>
        exfalso
        have himn : image.pixelAt y x = none := by
          rw [pixelAt_eq_none_iff image w h hir]
          exact (pixelAt_eq_none_iff mask w h hmr y x).mp hmpx
        rw [hipx] at himn
        cases himn
      | some mp =>
        dsimp only
        have hyh : y < h := by
          by_contra hcon
          have : mask.pixelAt y x = none :=
            (pixelAt_eq_none_iff mask w h hmr y x).mpr (Or.inl (le_of_not_lt hcon))
          rw [hmpx] at this
          cases this
        have hxw : x < w := by
          by_contra hcon
          have : mask.pixelAt y x = none :=
            (pixelAt_eq_none_iff mask w h hmr y x).mpr (Or.inr (le_of_not_lt hcon))
          rw [hmpx] at this
          cases this
        have hnh : isHair mp = false := by
          have := hother y hyh x hxw hyx
          rw [hmpx] at this
          exact this
        unfold remapPixel
        rw [hnh]
        rfl

/-- Witness for C7 (amended): the 2×2 example with its single white mask
pixel; the pixel at (0, 0) becomes (200, 200, 200) and the rest stay. -/
theorem C7_frame_witness :
    (remap_hair_colors testConv demoImg2 demoMask2 demoPalette 3).image.size = demoImg2.size ∧
      (remap_hair_colors testConv demoImg2 demoMask2 demoPalette 3).image.pixelAt 0 0 =
        some ⟨200, 200, 200⟩ ∧
      (⟨200, 200, 200⟩ : RGB) ≠ ⟨10, 10, 10⟩ ∧
      (∀ y x, (y, x) ≠ (0, 0) →
        (remap_hair_colors testConv demoImg2 demoMask2 demoPalette 3).image.pixelAt y x =
          demoImg2.pixelAt y x) :=
  C7_frame testConv demoImg2 demoMask2 demoPalette 3
    [⟨200, 200, 200⟩, ⟨201, 201, 201⟩, ⟨202, 202, 202⟩] 2 2 0 0
    ⟨10, 10, 10⟩ ⟨255, 255, 255⟩ ⟨200, 200, 200⟩
    (by decide) (by decide) rfl rfl rfl rfl (by decide) rfl rfl (by decide)

/-- C10: `remap_hair_colors` is total at its interface: nothing is ever
raised to the caller, and the returned image is either the input image
with no pixel modified (every internal failure — e.g. a malformed palette
— and the size-mismatch path fall back to it) or the fully remapped grid;
a partially recolored image is never returned.  The last conjunct
evaluates the function on a concretely malformed palette (a row with no
columns at all): the `KeyError` is caught and the input comes back
untouched. -/
theorem C10_total_no_partial (conv : ℚ → ℚ → ℚ → RGB) (image mask : Img)
    (cd : ColorData) (n : ℕ) :
    (remap_hair_colors conv image mask cd n).raised = none ∧
      ((remap_hair_colors conv image mask cd n).image = image ∨
        ∃ centers, extractClusterCenters conv cd n = Except.ok centers ∧
          image.size = mask.size ∧
          (remap_hair_colors conv image mask cd n).image = remapGrid centers image mask) ∧
      remap_hair_colors testConv demoImg2 demoMask2 [] 3 = ⟨demoImg2, none⟩ := by
  refine ⟨?_, ?_, rfl⟩
  · unfold remap_hair_colors remapTry
    by_cases hsz : image.size ≠ mask.size
    · rw [if_pos hsz]
    · rw [if_neg hsz]
      cases hex : extractClusterCenters conv cd n with
      | error e => rfl
      | ok centers => rfl
  · unfold remap_hair_colors remapTry
    by_cases hsz : image.size ≠ mask.size
    · rw [if_pos hsz]
      exact Or.inl rfl
    · rw [if_neg hsz]
      cases hex : extractClusterCenters conv cd n with
      | error e => exact Or.inl rfl
      | ok centers => exact Or.inr ⟨centers, rfl, not_ne_iff.mp hsz, rfl⟩

theorem quantileBoundaries_length (vals : List ℚ) (gs : ℕ) :
    (quantileBoundaries vals gs).length = gs + 1 := by
  unfold quantileBoundaries
  rw [List.length_map, List.length_range]

theorem get?_some_eq_getD {l : List ℚ} {n : ℕ} {c : ℚ} (h : l.get? n = some c) :
    l.getD n 0 = c ∧ n < l.length := by
  have hlen : n < l.length := by
    by_contra hcon
    rw [List.get?_eq_none.mpr (le_of_not_lt hcon)] at h
    cases h
  refine ⟨?_, hlen⟩
  rw [List.getD_eq_getD_get?, h]
  rfl

theorem getD_get? {l : List ℚ} {n : ℕ} (h : n < l.length) :
    l.get? n = some (l.getD n 0) := by
  rw [List.getD_eq_getD_get?]
  cases hc : l.get? n with
  | none =>
    exfalso
    rw [List.get?_eq_none] at hc
    omega
  | some c => rfl

theorem pairwise_getD_lt {l : List ℚ} (hpw : List.Pairwise (· < ·) l)
    {m n : ℕ} (hmn : m < n) (hn : n < l.length) : l.getD m 0 < l.getD n 0 := by
  have hm : m < l.length := lt_trans hmn hn
  rw [List.getD_eq_getElem _ _ hm, List.getD_eq_getElem _ _ hn]
  exact List.pairwise_iff_get.mp hpw ⟨m, hm⟩ ⟨n, hn⟩ hmn

/-- `pdCutGo v i bs` returns `i + j` for the first position `j` of `bs`
whose edge is at least `v`. -/
theorem pdCutGo_some_iff (v : ℚ) :
    ∀ (bs : List ℚ) (i k : ℕ), pdCutGo v i bs = some k ↔
      ∃ j c, k = i + j ∧ bs.get? j = some c ∧ v ≤ c ∧
        ∀ m d, m < j → bs.get? m = some d → d < v := by
  intro bs
  induction bs with
  | nil =>
    intro i k
    simp [pdCutGo]
  | cons b bs ih =>
    intro i k
    rw [pdCutGo]
    by_cases hvb : v ≤ b
    · rw [if_pos hvb]
      constructor
      · intro h
        cases h
        exact ⟨0, b, (Nat.add_zero i).symm, rfl, hvb,
          fun m d hm => absurd hm (Nat.not_lt_zero m)⟩
      · rintro ⟨j, c, hk, hc, hvc, hlt⟩
        cases j with
        | zero => simp [hk]
        | succ m =>
          exfalso
          exact absurd hvb (not_le.mpr (hlt 0 b (Nat.succ_pos m) rfl))
    · rw [if_neg hvb]
      have hbv : b < v := lt_of_not_le hvb
      rw [ih (i + 1) k]
      constructor
      · rintro ⟨j, c, hk, hc, hvc, hlt⟩
        refine ⟨j + 1, c, by omega, hc, hvc, ?_⟩
        intro m d hm hd
        cases m with
        | zero => cases hd; exact hbv
        | succ m2 => exact hlt m2 d (Nat.lt_of_succ_lt_succ hm) hd
      · rintro ⟨j, c, hk, hc, hvc, hlt⟩
        cases j with
        | zero =>
          cases hc
          exact absurd hvc hvb
        | succ m =>
          exact ⟨m, c, by omega, hc, hvc,
            fun m2 d hm2 hd => hlt (m2 + 1) d (by omega) hd⟩

/-- Characterization of the `pd.cut` assignment when the bin edges are
strictly increasing (no duplicate is dropped): value `v` lands in bin `k`
iff `k` is a valid bin index, `v` is at least the lowest edge, at most
edge `k + 1`, and — for `k > 0` — strictly above edge `k`; i.e. the lowest
bin is closed on both ends and later bins are left-open, right-closed. -/
theorem pdCut_some_iff (bins : List ℚ) (v : ℚ) (k : ℕ)
    (hpw : List.Pairwise (· < ·) bins) :
    pdCut bins v = some k ↔
      k + 1 < bins.length ∧ bins.getD 0 0 ≤ v ∧ v ≤ bins.getD (k + 1) 0 ∧
        (0 < k → bins.getD k 0 < v) := by
  have hnd : bins.Nodup := hpw.imp ne_of_lt
  unfold pdCut
  rw [List.dedup_eq_self.mpr hnd]
  cases bins with
  | nil => simp
  | cons b0 rest =>
    dsimp only
    have hrest : List.Pairwise (· < ·) rest := (List.pairwise_cons.mp hpw).2
    by_cases hvb : v < b0
    · rw [if_pos hvb]
      constructor
      · intro h; cases h
      · rintro ⟨-, h0, -, -⟩
        rw [List.getD_cons_zero] at h0
        exact absurd h0 (not_le.mpr hvb)
    · rw [if_neg hvb]
      have hb0v : b0 ≤ v := le_of_not_lt hvb
      rw [pdCutGo_some_iff]
      constructor
      · rintro ⟨j, c, hk, hc, hvc, hlt⟩
        have hkj : k = j := by omega
        subst hkj
        obtain ⟨hcd, hjlen⟩ := get?_some_eq_getD hc
        refine ⟨by simp only [List.length_cons]; omega,
          by rw [List.getD_cons_zero]; exact hb0v, ?_, ?_⟩
        · rw [List.getD_cons_succ, hcd]
          exact hvc
        · intro hk0
          obtain ⟨k2, rfl⟩ : ∃ k2, k = k2 + 1 := ⟨k - 1, by omega⟩
          rw [List.getD_cons_succ]
          exact hlt k2 (rest.getD k2 0) (by omega) (getD_get? (by omega))
      · rintro ⟨hlen, -, hvk, hstr⟩
        have hklen : k < rest.length := by
          simp only [List.length_cons] at hlen
          omega
        refine ⟨k, rest.getD k 0, (Nat.zero_add k).symm, getD_get? hklen, ?_, ?_⟩
        · rw [List.getD_cons_succ] at hvk
          exact hvk
        · intro m c hm hc
          obtain ⟨hcd, hmlen⟩ := get?_some_eq_getD hc
          obtain ⟨k2, rfl⟩ : ∃ k2, k = k2 + 1 := ⟨k - 1, by omega⟩
          have hedge : rest.getD k2 0 < v := by
            have := hstr (Nat.succ_pos k2)
            rw [List.getD_cons_succ] at this
            exact this
          rw [← hcd]
          rcases Nat.lt_or_ge m k2 with hmlt | hmge
          · exact lt_trans (pairwise_getD_lt hrest hmlt (by omega)) hedge
          · have hmeq : m = k2 := by omega
            subst hmeq
            exact hedge

/-- A `pd.cut` label is always a valid index into the (deduplicated, hence
also the original) edge list. -/
theorem pdCut_lt_of_some (bins : List ℚ) (v : ℚ) (k : ℕ)
    (h : pdCut bins v = some k) : k + 1 < bins.length := by
  unfold pdCut at h
  cases hd : bins.dedup with
  | nil => rw [hd] at h; cases h
  | cons b0 rest =>
    rw [hd] at h
    dsimp only at h
    by_cases hvb : v < b0
    · rw [if_pos hvb] at h
      cases h
    · rw [if_neg hvb] at h
      rw [pdCutGo_some_iff] at h
      obtain ⟨j, c, hk, hc, -, -⟩ := h
      obtain ⟨-, hjlen⟩ := get?_some_eq_getD hc
      have hdl : bins.dedup.length ≤ bins.length := (List.dedup_sublist bins).length_le
      rw [hd] at hdl
      simp only [List.length_cons] at hdl
      omega

/-- C4 counterexample: gridSize = 1 does not fail — the function succeeds
and builds a 1×1 grid (no `InvalidGridSizeError` exists in the code) —
and the empty row sequence fails with an uncaught `KeyError`, not with
`InsufficientDataError`. -/
theorem C4_counterexample :
    (select_representative_samples_quantile demoRows4 1).toOption.isSome = true ∧
      select_representative_samples_quantile [] 4 = Except.error (PyError.keyError "L") ∧
      PyError.keyError "L" ≠ PyError.insufficientDataError :=
  ⟨rfl, rfl, by decide⟩

/-- C4 (amended): with gridSize 0 the function fails with an uncaught
`ZeroDivisionError` from `i / grid_size` at line 59; with gridSize ≥ 1 and
an empty row sequence it fails with an uncaught `KeyError` on column 'L'
(`pd.DataFrame([])` has no columns) — not with `InsufficientDataError`;
and for every non-empty row sequence and gridSize ≥ 1 — in particular
gridSize = 1 — it succeeds; neither `InsufficientDataError` nor
`InvalidGridSizeError` exists in the code. -/
theorem C4_failure_modes (rows : List LchRow) (gs : ℕ) :
    (gs = 0 → select_representative_samples_quantile rows gs =
      Except.error PyError.zeroDivisionError) ∧
    (rows = [] → 1 ≤ gs → select_representative_samples_quantile rows gs =
      Except.error (PyError.keyError "L")) ∧
    (rows ≠ [] → 1 ≤ gs →
      (select_representative_samples_quantile rows gs).toOption.isSome = true) := by
  refine ⟨?_, ?_, ?_⟩
  · intro h
    subst h
    rfl
  · intro h hgs
    subst h
    unfold select_representative_samples_quantile
    rw [if_neg (by omega)]
    rfl
  · intro hne hgs
    unfold select_representative_samples_quantile
    rw [if_neg (by omega), if_neg (by simp [List.isEmpty_iff, hne])]
    rfl

/-- Witness for C4 (amended): gridSize 0 on the demo rows, the empty input
at gridSize 3, and a 2-row input with gridSize 1. -/
theorem C4_failure_modes_witness :
    select_representative_samples_quantile demoRows2 0 =
        Except.error PyError.zeroDivisionError ∧
      select_representative_samples_quantile [] 3 =
        Except.error (PyError.keyError "L") ∧
      (select_representative_samples_quantile demoRows2 1).toOption.isSome = true :=
  ⟨(C4_failure_modes demoRows2 0).1 rfl,
    (C4_failure_modes [] 3).2.1 rfl (by decide),
    (C4_failure_modes demoRows2 1).2.2 (by decide) (by decide)⟩

/-- C5 counterexample: with axis values [0, 0, 0, 100] and gridSize 4 the
quantile boundaries are [0, 0, 0, 25, 100]; `pd.cut` drops the duplicated
edges before binning, so the value 100 receives bin label 1, although
under the claimed rule over the original boundaries bin 1 would require
boundary[1] ≤ 100 ≤ boundary[2], i.e. 100 ≤ 0 — so the claimed iff fails
at this input. -/
theorem C5_counterexample :
    binAssign demoLVals 4 100 = some 1 ∧
      quantileBoundaries demoLVals 4 = [0, 0, 0, 25, 100] ∧
      ¬ (100 : ℚ) ≤ (quantileBoundaries demoLVals 4).getD 2 0 :=
  ⟨rfl, rfl, by decide⟩

/-- C5 (amended): the selection computes per axis gridSize+1 boundaries
with boundary[k] the k/gridSize quantile of that axis's values; when those
boundaries are pairwise distinct (nothing for `duplicates='drop'` to
remove), a value v is assigned bin i iff boundary[i] ≤ v ≤ boundary[i+1]
with the lowest bin closed on both ends and later bins half-open on the
left and closed on the right (when duplicate boundaries collapse, labels
count the deduplicated edges instead); with 16 rows of distinct evenly
spaced L values in 0..100 and gridSize 4, every L-bin receives exactly 4
rows. -/
theorem C5_quantile_binning :
    (∀ (rows : List LchRow) (gs : ℕ) (sel : QuantileSelection),
      select_representative_samples_quantile rows gs = Except.ok sel →
      sel.bins_L = quantileBoundaries (rows.map fun r => r.L) gs ∧
        sel.bins_L.length = gs + 1 ∧
        sel.bins_C = quantileBoundaries (rows.map fun r => r.C) gs ∧
        sel.bins_h = quantileBoundaries (rows.map fun r => r.h) gs) ∧
    (∀ (vals : List ℚ) (gs : ℕ) (v : ℚ) (k : ℕ),
      List.Pairwise (· < ·) (quantileBoundaries vals gs) →
      (binAssign vals gs v = some k ↔
        k + 1 < (quantileBoundaries vals gs).length ∧
        (quantileBoundaries vals gs).getD 0 0 ≤ v ∧
        v ≤ (quantileBoundaries vals gs).getD (k + 1) 0 ∧
        (0 < k → (quantileBoundaries vals gs).getD k 0 < v))) ∧
    (∀ i, i < 4 →
      ((demoRows16.map fun r => r.L).countP
        (fun v => binAssign (demoRows16.map fun r => r.L) 4 v == some i)) = 4) := by
  refine ⟨?_, ?_, by decide⟩
  · intro rows gs sel hsel
    unfold select_representative_samples_quantile at hsel
    by_cases h2 : gs = 0
    · rw [if_pos h2] at hsel
      cases hsel
    · rw [if_neg h2] at hsel
      by_cases h1 : rows.isEmpty = true
      · rw [if_pos h1] at hsel
        cases hsel
      · rw [if_neg h1] at hsel
        cases hsel
        exact ⟨rfl, quantileBoundaries_length _ _, rfl, rfl⟩
  · intro vals gs v k hchain
    exact pdCut_some_iff (quantileBoundaries vals gs) v k hchain

/-- Witness for C5 (amended): the two-row axis values [0, 10] give strictly
increasing boundaries [0, 5, 10] for grid size 2, and the binning rule is
instantiated there at v = 7, i = 1; the first part is instantiated on a
successful 2-row selection. -/
theorem C5_quantile_binning_witness :
    (binAssign [0, 10] 2 7 = some 1 ↔
      1 + 1 < (quantileBoundaries [0, 10] 2).length ∧
      (quantileBoundaries [0, 10] 2).getD 0 0 ≤ 7 ∧
      (7 : ℚ) ≤ (quantileBoundaries [0, 10] 2).getD (1 + 1) 0 ∧
      (0 < 1 → (quantileBoundaries [0, 10] 2).getD 1 0 < 7)) ∧
    ((⟨lcSelected demoRows2 2, lhSelected demoRows2 2, regionLBins demoRows2 2,
        regionCBins demoRows2 2, regionHBins demoRows2 2, demoRows2⟩ :
        QuantileSelection).bins_L =
      quantileBoundaries (demoRows2.map fun r => r.L) 2 ∧
      (regionLBins demoRows2 2).length = 2 + 1 ∧
      (⟨lcSelected demoRows2 2, lhSelected demoRows2 2, regionLBins demoRows2 2,
        regionCBins demoRows2 2, regionHBins demoRows2 2, demoRows2⟩ :
        QuantileSelection).bins_C =
      quantileBoundaries (demoRows2.map fun r => r.C) 2 ∧
      (⟨lcSelected demoRows2 2, lhSelected demoRows2 2, regionLBins demoRows2 2,
        regionCBins demoRows2 2, regionHBins demoRows2 2, demoRows2⟩ :
        QuantileSelection).bins_h =
      quantileBoundaries (demoRows2.map fun r => r.h) 2) :=
  ⟨C5_quantile_binning.2.1 [0, 10] 2 7 1 (by decide),
    C5_quantile_binning.1 demoRows2 2 _ rfl⟩

/-- C6: for every non-empty cell of the L-C grid and of the L-h grid, the
selected representative — a member of the returned sample lists — is the
row of the cell whose 2-D point minimizes the Euclidean distance to the
cell center (the midpoint of the cell's boundary pair on each axis), with
ties going to the first row in the region's input order: its distance is
at most every cell row's, and every strictly earlier cell row is strictly
farther from the center. -/
theorem C6_cell_representative :
    (∀ (rows : List LchRow) (gs : ℕ) (sel : QuantileSelection),
      select_representative_samples_quantile rows gs = Except.ok sel →
      sel.lc_samples = lcSelected rows gs ∧ sel.lh_samples = lhSelected rows gs) ∧
    (∀ (rows : List LchRow) (gs i j : ℕ), lcCell rows gs i j ≠ [] →
      ∃ rep, lcRepresentative rows gs i j = some rep ∧
        rep ∈ lcSelected rows gs ∧
        ∃ k, (lcCell rows gs i j).get? k = some rep ∧
          (∀ m s, (lcCell rows gs i j).get? m = some s →
            edist2 (rep.L, rep.C) (lcCenter rows gs i j) ≤
              edist2 (s.L, s.C) (lcCenter rows gs i j)) ∧
          (∀ m s, m < k → (lcCell rows gs i j).get? m = some s →
            edist2 (rep.L, rep.C) (lcCenter rows gs i j) <
              edist2 (s.L, s.C) (lcCenter rows gs i j))) ∧
    (∀ (rows : List LchRow) (gs i j : ℕ), lhCell rows gs i j ≠ [] →
      ∃ rep, lhRepresentative rows gs i j = some rep ∧
        rep ∈ lhSelected rows gs ∧
        ∃ k, (lhCell rows gs i j).get? k = some rep ∧
          (∀ m s, (lhCell rows gs i j).get? m = some s →
            edist2 (rep.L, rep.h) (lhCenter rows gs i j) ≤
              edist2 (s.L, s.h) (lhCenter rows gs i j)) ∧
          (∀ m s, m < k → (lhCell rows gs i j).get? m = some s →
            edist2 (rep.L, rep.h) (lhCenter rows gs i j) <
              edist2 (s.L, s.h) (lhCenter rows gs i j))) := by
  refine ⟨?_, ?_, ?_⟩
  · intro rows gs sel hsel
    unfold select_representative_samples_quantile at hsel
    by_cases h2 : gs = 0
    · rw [if_pos h2] at hsel
      cases hsel
    · rw [if_neg h2] at hsel
      by_cases h1 : rows.isEmpty = true
      · rw [if_pos h1] at hsel
        cases hsel
      · rw [if_neg h1] at hsel
        cases hsel
        exact ⟨rfl, rfl⟩
  · intro rows gs i j hne
    obtain ⟨r0, hr0⟩ := List.exists_mem_of_ne_nil _ hne
    have hp := (List.mem_filter.mp hr0).2
    rw [Bool.and_eq_true, beq_iff_eq, beq_iff_eq] at hp
    obtain ⟨hpi, hpj⟩ := hp
    have hilt : i < gs := by
      have h1 := pdCut_lt_of_some _ _ _ hpi
      have h2 := quantileBoundaries_length (rows.map fun r => r.L) gs
      unfold regionLBins at h1
      omega
    have hjlt : j < gs := by
      have h1 := pdCut_lt_of_some _ _ _ hpj
      have h2 := quantileBoundaries_length (rows.map fun r => r.C) gs
      unfold regionCBins at h1
      omega
    obtain ⟨rep, hrep⟩ : ∃ rep, lcRepresentative rows gs i j = some rep := by
      cases h : lcRepresentative rows gs i j with
      | none => exact absurd ((firstArgmin_eq_none _ _).mp h) hne
      | some rep => exact ⟨rep, rfl⟩
    obtain ⟨k, hk, hmin, hstrict⟩ := firstArgmin_spec _ _ rep hrep
    refine ⟨rep, hrep, ?_, k, hk, ?_, ?_⟩
    · unfold lcSelected
      refine List.mem_filterMap.mpr ⟨(i, j), ?_, hrep⟩
      unfold gridCells
      exact List.mem_flatMap.mpr
        ⟨i, List.mem_range.mpr hilt, List.mem_map.mpr ⟨j, List.mem_range.mpr hjlt, rfl⟩⟩
    · intro m s hm
      exact edist2_le_edist2 (rep.L, rep.C) (s.L, s.C) (lcCenter rows gs i j) (hmin m s hm)
    · intro m s hm hms
      exact edist2_lt_edist2 (rep.L, rep.C) (s.L, s.C) (lcCenter rows gs i j)
        (hstrict m s hm hms)
  · intro rows gs i j hne
    obtain ⟨r0, hr0⟩ := List.exists_mem_of_ne_nil _ hne
    have hp := (List.mem_filter.mp hr0).2
    rw [Bool.and_eq_true, beq_iff_eq, beq_iff_eq] at hp
    obtain ⟨hpi, hpj⟩ := hp
    have hilt : i < gs := by
      have h1 := pdCut_lt_of_some _ _ _ hpi
      have h2 := quantileBoundaries_length (rows.map fun r => r.L) gs
      unfold regionLBins at h1
      omega
    have hjlt : j < gs := by
      have h1 := pdCut_lt_of_some _ _ _ hpj
      have h2 := quantileBoundaries_length (rows.map fun r => r.h) gs
      unfold regionHBins at h1
      omega
    obtain ⟨rep, hrep⟩ : ∃ rep, lhRepresentative rows gs i j = some rep := by
      cases h : lhRepresentative rows gs i j with
      | none => exact absurd ((firstArgmin_eq_none _ _).mp h) hne
      | some rep => exact ⟨rep, rfl⟩
    obtain ⟨k, hk, hmin, hstrict⟩ := firstArgmin_spec _ _ rep hrep
    refine ⟨rep, hrep, ?_, k, hk, ?_, ?_⟩
    · unfold lhSelected
      refine List.mem_filterMap.mpr ⟨(i, j), ?_, hrep⟩
      unfold gridCells
      exact List.mem_flatMap.mpr
        ⟨i, List.mem_range.mpr hilt, List.mem_map.mpr ⟨j, List.mem_range.mpr hjlt, rfl⟩⟩
    · intro m s hm
      exact edist2_le_edist2 (rep.L, rep.h) (s.L, s.h) (lhCenter rows gs i j) (hmin m s hm)
    · intro m s hm hms
      exact edist2_lt_edist2 (rep.L, rep.h) (s.L, s.h) (lhCenter rows gs i j)
        (hstrict m s hm hms)

/-- Witness for C6: the selection on the two demo rows with grid size 2;
cell (0, 0) of both grids is non-empty. -/
theorem C6_cell_representative_witness :
    ((⟨lcSelected demoRows2 2, lhSelected demoRows2 2, regionLBins demoRows2 2,
        regionCBins demoRows2 2, regionHBins demoRows2 2, demoRows2⟩ :
        QuantileSelection).lc_samples = lcSelected demoRows2 2 ∧
      (⟨lcSelected demoRows2 2, lhSelected demoRows2 2, regionLBins demoRows2 2,
        regionCBins demoRows2 2, regionHBins demoRows2 2, demoRows2⟩ :
        QuantileSelection).lh_samples = lhSelected demoRows2 2) ∧
    (∃ rep, lcRepresentative demoRows2 2 0 0 = some rep ∧
      rep ∈ lcSelected demoRows2 2 ∧
      ∃ k, (lcCell demoRows2 2 0 0).get? k = some rep ∧
        (∀ m s, (lcCell demoRows2 2 0 0).get? m = some s →
          edist2 (rep.L, rep.C) (lcCenter demoRows2 2 0 0) ≤
            edist2 (s.L, s.C) (lcCenter demoRows2 2 0 0)) ∧
        (∀ m s, m < k → (lcCell demoRows2 2 0 0).get? m = some s →
          edist2 (rep.L, rep.C) (lcCenter demoRows2 2 0 0) <
            edist2 (s.L, s.C) (lcCenter demoRows2 2 0 0))) ∧
    (∃ rep, lhRepresentative demoRows2 2 0 0 = some rep ∧
      rep ∈ lhSelected demoRows2 2 ∧
      ∃ k, (lhCell demoRows2 2 0 0).get? k = some rep ∧
        (∀ m s, (lhCell demoRows2 2 0 0).get? m = some s →
          edist2 (rep.L, rep.h) (lhCenter demoRows2 2 0 0) ≤
            edist2 (s.L, s.h) (lhCenter demoRows2 2 0 0)) ∧
        (∀ m s, m < k → (lhCell demoRows2 2 0 0).get? m = some s →
          edist2 (rep.L, rep.h) (lhCenter demoRows2 2 0 0) <
            edist2 (s.L, s.h) (lhCenter demoRows2 2 0 0))) :=
  ⟨C6_cell_representative.1 demoRows2 2 _ rfl,
    C6_cell_representative.2.1 demoRows2 2 0 0 (by decide),
    C6_cell_representative.2.2 demoRows2 2 0 0 (by decide)⟩

/-- C8 counterexample: selecting the most balanced sample over an empty
sequence fails with Python's `ValueError` raised by `min()` on an empty
sequence (and in app.py the selection is additionally guarded by
`df.empty`); no `EmptyInputError` class exists in the repository. -/
theorem C8_counterexample :
    best_balanced (get_sample_info []) =
        Except.error (PyError.valueError "min() arg is an empty sequence") ∧
      best_balanced (get_sample_info []) ≠ Except.error PyError.emptyInputError :=
  ⟨rfl, fun h => absurd (Except.error.inj h) (by decide)⟩

/-- C8 (amended): the balance score of the proportions is Σ|pᵢ − 100/3|
(so balanceScore([33.33, 33.33, 33.34]) = 1/75 ≈ 0 and
balanceScore([100, 0, 0]) = 400/3 ≈ 133.33); each sample info carries the
score of its row in input order; the best-balanced selection over a
non-empty row sequence returns the info of minimum balance score, ties
broken by the first row in input order; on the empty sequence it fails
with Python's `ValueError` from `min()`, not with `EmptyInputError`. -/
theorem C8_balance_selection :
    balance_score [3333 / 100, 3333 / 100, 1667 / 50] = 1 / 75 ∧
    balance_score [100, 0, 0] = 400 / 3 ∧
    (∀ (rows : List SampleRow) (k : ℕ) (r : SampleRow), rows.get? k = some r →
      (get_sample_info rows).get? k =
        some ⟨k, [r.proportion_1, r.proportion_2, r.proportion_3],
          balance_score [r.proportion_1, r.proportion_2, r.proportion_3]⟩) ∧
    (∀ (rows : List SampleRow), rows ≠ [] →
      ∃ s k, best_balanced (get_sample_info rows) = Except.ok s ∧
        (get_sample_info rows).get? k = some s ∧
        (∀ m t, (get_sample_info rows).get? m = some t → s.score ≤ t.score) ∧
        (∀ m t, m < k → (get_sample_info rows).get? m = some t → s.score < t.score)) ∧
    best_balanced (get_sample_info []) =
      Except.error (PyError.valueError "min() arg is an empty sequence") := by
  refine ⟨by decide, by decide, ?_, ?_, rfl⟩
  · intro rows k r hk
    unfold get_sample_info
    rw [List.get?_map, List.get?_enum, hk]
    rfl
  · intro rows hne
    have hinfos : get_sample_info rows ≠ [] := by
      intro hcon
      apply hne
      apply List.length_eq_zero.mp
      have hlen : (get_sample_info rows).length = rows.length := by
        simp [get_sample_info]
      rw [← hlen, hcon]
      rfl
    cases hb : firstArgmin (fun s => s.score) (get_sample_info rows) with
    | none => exact absurd ((firstArgmin_eq_none _ _).mp hb) hinfos
    | some s =>
      obtain ⟨k, hk, hmin, hstrict⟩ := firstArgmin_spec _ _ s hb
      refine ⟨s, k, ?_, hk, hmin, hstrict⟩
      unfold best_balanced
      rw [hb]

/-- Witness for C8 (amended): the first-info lookup and the selection over
the two demo sample rows (the second row, score 4/3, wins). -/
theorem C8_balance_selection_witness :
    (get_sample_info demoSampleRows).get? 0 =
        some ⟨0, [(⟨50, 30, 20⟩ : SampleRow).proportion_1,
          (⟨50, 30, 20⟩ : SampleRow).proportion_2,
          (⟨50, 30, 20⟩ : SampleRow).proportion_3],
          balance_score [(⟨50, 30, 20⟩ : SampleRow).proportion_1,
            (⟨50, 30, 20⟩ : SampleRow).proportion_2,
            (⟨50, 30, 20⟩ : SampleRow).proportion_3]⟩ ∧
      ∃ s k, best_balanced (get_sample_info demoSampleRows) = Except.ok s ∧
        (get_sample_info demoSampleRows).get? k = some s ∧
        (∀ m t, (get_sample_info demoSampleRows).get? m = some t → s.score ≤ t.score) ∧
        (∀ m t, m < k → (get_sample_info demoSampleRows).get? m = some t →
          s.score < t.score) :=
  ⟨C8_balance_selection.2.2.1 demoSampleRows 0 ⟨50, 30, 20⟩ rfl,
    C8_balance_selection.2.2.2.1 demoSampleRows (by decide)⟩

/-- C9: `lab_to_lch` passes L through unchanged, returns C = sqrt(a² + b²),
and returns the hue atan2(b, a) in degrees mapped into [0, 360): the raw
degree value is kept when non-negative and increased by 360 when negative;
in particular (L, 0, 0) yields C = 0 without crashing (the hue is then 0,
numpy's arctan2(0, 0)), (L, a, 0) with a > 0 yields h = 0°, and with
a < 0 yields h = 180°. -/
theorem C9_lab_to_lch (L a b : ℝ) :
    (lab_to_lch L a b).1 = L ∧
    (lab_to_lch L a b).2.1 = Real.sqrt (a ^ 2 + b ^ 2) ∧
    0 ≤ (lab_to_lch L a b).2.2 ∧
    (lab_to_lch L a b).2.2 < 360 ∧
    (0 ≤ Complex.arg ((a : ℂ) + (b : ℂ) * Complex.I) * 180 / Real.pi →
      (lab_to_lch L a b).2.2 =
        Complex.arg ((a : ℂ) + (b : ℂ) * Complex.I) * 180 / Real.pi) ∧
    (Complex.arg ((a : ℂ) + (b : ℂ) * Complex.I) * 180 / Real.pi < 0 →
      (lab_to_lch L a b).2.2 =
        Complex.arg ((a : ℂ) + (b : ℂ) * Complex.I) * 180 / Real.pi + 360) ∧
    (a = 0 → b = 0 → (lab_to_lch L a b).2.1 = 0 ∧ (lab_to_lch L a b).2.2 = 0) ∧
    (0 < a → b = 0 → (lab_to_lch L a b).2.2 = 0) ∧
    (a < 0 → b = 0 → (lab_to_lch L a b).2.2 = 180) := by
  have hpi : (0 : ℝ) < Real.pi := Real.pi_pos
  have harg_le : Complex.arg ((a : ℂ) + (b : ℂ) * Complex.I) ≤ Real.pi :=
    Complex.arg_le_pi _
  have harg_gt : -Real.pi < Complex.arg ((a : ℂ) + (b : ℂ) * Complex.I) :=
    Complex.neg_pi_lt_arg _
  have hub : Complex.arg ((a : ℂ) + (b : ℂ) * Complex.I) * 180 / Real.pi ≤ 180 := by
    rw [div_le_iff hpi]
    nlinarith
  have hlb : (-180 : ℝ) < Complex.arg ((a : ℂ) + (b : ℂ) * Complex.I) * 180 / Real.pi := by
    rw [lt_div_iff hpi]
    nlinarith
  have h180 : Real.pi * 180 / Real.pi = 180 := by
    field_simp
  simp only [lab_to_lch]
  refine ⟨trivial, trivial, ?_, ?_, ?_, ?_, ?_, ?_, ?_⟩
  · split_ifs with hneg
    · linarith
    · linarith [not_lt.mp hneg]
  · split_ifs with hneg
    · linarith
    · linarith
  · intro hnn
    rw [if_neg (not_lt.mpr hnn)]
  · intro hneg
    rw [if_pos hneg]
  · intro ha hb
    subst ha
    subst hb
    constructor
    · simp
    · have hz : (((0 : ℝ) : ℂ) + ((0 : ℝ) : ℂ) * Complex.I) = 0 := by
        simp
      rw [hz, Complex.arg_zero]
      norm_num
  · intro ha hb
    subst hb
    have hz : ((a : ℂ) + ((0 : ℝ) : ℂ) * Complex.I) = (a : ℂ) := by
      simp
    rw [hz, Complex.arg_ofReal_of_nonneg ha.le]
    norm_num
  · intro ha hb
    subst hb
    have hz : ((a : ℂ) + ((0 : ℝ) : ℂ) * Complex.I) = (a : ℂ) := by
      simp
    rw [hz, Complex.arg_ofReal_of_neg ha, h180]
    norm_num

/-- Witness for C9: hue 180° at (5, −1, 0), chroma and hue 0 at (7, 0, 0),
hue 0° at (5, 3, 0). -/
theorem C9_lab_to_lch_witness :
    (lab_to_lch 5 (-1) 0).2.2 = 180 ∧
      (lab_to_lch 7 0 0).2.1 = 0 ∧ (lab_to_lch 7 0 0).2.2 = 0 ∧
      (lab_to_lch 5 3 0).2.2 = 0 :=
  ⟨(C9_lab_to_lch 5 (-1) 0).2.2.2.2.2.2.2.2 (by norm_num) rfl,
    ((C9_lab_to_lch 7 0 0).2.2.2.2.2.2.1 rfl rfl).1,
    ((C9_lab_to_lch 7 0 0).2.2.2.2.2.2.1 rfl rfl).2,
    (C9_lab_to_lch 5 3 0).2.2.2.2.2.2.2.1 (by norm_num) rfl⟩

end ThreeColors
